import Mathlib

/-!
Shallow embedding of `src/Material_Takeoff_With_Layer.py`, a single-pass
material-takeoff extraction over selected building elements.

Host-API calls that may raise an exception are modelled by the `Fetch`
wrapper; calls that may return null are modelled by `Option`.  The Python
`try/except` blocks of the script become explicit pattern matches on
`Fetch.raises`.  The Dynamo input value `IN[0]` is modelled by `PyVal`
(null, list, tuple-like non-list collection, or element reference), so the
`isinstance(selection, list)` normalization is captured exactly.
-/

/-- Result of a host-API access that may raise an exception. -/
inductive Fetch (α : Type) where
  | raises
  | ok (a : α)
  deriving DecidableEq, Repr

/-- Result of `element.get_Parameter(name)` combined with `HasValue` and
`AsString()`: the call may raise, return null, return a parameter without a
value, or return a parameter whose string value is `s`. -/
inductive ParamFetch where
  | raises
  | noParam
  | noValue
  | value (s : String)
  deriving DecidableEq, Repr

/-- A compound-structure layer: carries the material element id
(`layer.MaterialId`), possibly an invalid id. -/
structure Layer where
  materialId : Int
  deriving DecidableEq, Repr

/-- `compound_structure.GetLayers()` may raise, return null, or return the
ordered layer list. -/
structure CompoundStructure where
  layersF : Fetch (Option (List Layer))
  deriving DecidableEq, Repr

/-- An element type (family symbol).  `id` is its element id (identity);
the remaining fields record what each host access on it returns:
the family-name parameter, the type-name parameter, `Category` (which may
raise, be null, or have a name), and `GetCompoundStructure()`. -/
structure ElementType where
  id : Nat
  familyParam : ParamFetch
  typeParam : ParamFetch
  category : Fetch (Option String)
  compound : Fetch (Option CompoundStructure)
  deriving DecidableEq, Repr

/-- A material element; reading `material.Name` may raise. -/
structure Material where
  nameF : Fetch String
  deriving DecidableEq, Repr

/-- A selected model element: `GetTypeId()` may raise, or yield no valid
type id (null / `IsNull`), or yield a type id. -/
structure Element where
  typeIdF : Fetch (Option Nat)
  deriving DecidableEq, Repr

/-- The value space of the Dynamo input `IN[0]`: null, a Python `list`,
a non-list ordered collection (e.g. a tuple), or a single element
reference. -/
inductive PyVal where
  | pyNone
  | pyList (xs : List PyVal)
  | pyTuple (xs : List PyVal)
  | pyElem (e : Element)

/-- The host document: `doc.GetElement` restricted to type ids and to
material ids (null when the id does not resolve). -/
structure Doc where
  getType : Nat → Option ElementType
  getMaterial : Int → Option Material

/-- One output dictionary of the script, with its five keys. -/
structure OutputRecord where
  familyType : String
  typeName : String
  category : String
  material : String
  layerNumber : Nat
  deriving DecidableEq, Repr

/-- The fatal error of the input-processing block (`ValueError`, wrapped by
the outer `except` with a prefix). -/
inductive RunError where
  | invalidSelection (msg : String)
  deriving DecidableEq, Repr

/-- `get_parameter_value(element, param_name, default)`: returns the
parameter's string value when present with a value, otherwise the default;
any exception is caught and the default returned. -/
def get_parameter_value (pf : ParamFetch) (default : String) : String :=
  match pf with
  | .value s => s
  | .noParam => default
  | .noValue => default
  | .raises => default

/-- `GetTypeId()` applied to one item of the normalized selection; on a
non-element item (e.g. a wrapped tuple) the attribute access raises. -/
def getTypeIdOf : PyVal → Fetch (Option Nat)
  | .pyElem e => e.typeIdF
  | _ => .raises

/-- `elements = selection if isinstance(selection, list) else [selection]`. -/
def normalize_selection : PyVal → List PyVal
  | .pyList xs => xs
  | v => [v]

/-- The "Get element types from selection" loop: per element, fetch the
type id (exceptions caught and the element skipped), skip invalid ids,
look the type up in the document, and append it only if not already
present. -/
def get_element_types (doc : Doc) (elements : List PyVal) : List ElementType :=
  elements.foldl (fun acc element =>
    match getTypeIdOf element with
    | .raises => acc
    | .ok none => acc
    | .ok (some tid) =>
      match doc.getType tid with
      | none => acc
      | some element_type =>
        if acc.contains element_type then acc else acc ++ [element_type]) []

/-- Body of the per-layer `try`: `doc.GetElement(layer.MaterialId)`; a null
material or a per-layer exception yields no record, otherwise one record
with `Layer Number = idx + 1`. -/
def process_layer (doc : Doc) (family_name type_name category_name : String)
    (idx : Nat) (layer : Layer) : Option OutputRecord :=
  match doc.getMaterial layer.materialId with
  | none => none
  | some material =>
    match material.nameF with
    | .raises => none
    | .ok n =>
      some { familyType := family_name, typeName := type_name,
             category := category_name, material := n, layerNumber := idx + 1 }

/-- `for idx, layer in enumerate(layers)` with the per-layer `try/except`:
layers that yield no record are skipped, indices are positions in the
source list. -/
def process_layers (doc : Doc) (family_name type_name category_name : String)
    (layers : List Layer) : List OutputRecord :=
  layers.enum.filterMap fun p =>
    process_layer doc family_name type_name category_name p.1 p.2

/-- Body of the per-type `try`: read family/type names via
`get_parameter_value`, read `Category` (a raise here is caught by the
per-type `except`, abandoning the type), fetch the compound structure and
its layers (absent or empty means zero records for this type), then run
the layer loop. -/
def process_element_type (doc : Doc) (element_type : ElementType) :
    List OutputRecord :=
  let family_name := get_parameter_value element_type.familyParam "Unknown Family"
  let type_name := get_parameter_value element_type.typeParam "Unknown Type"
  match element_type.category with
  | .raises => []
  | .ok cat =>
    let category_name := cat.getD "Unknown Category"
    match element_type.compound with
    | .raises => []
    | .ok none => []
    | .ok (some compound_structure) =>
      match compound_structure.layersF with
      | .raises => []
      | .ok none => []
      | .ok (some layers) =>
        if layers.isEmpty then []
        else process_layers doc family_name type_name category_name layers

/-- The "Parse compound structures" outer loop accumulating
`material_data` across all element types. -/
def process_element_types (doc : Doc) (ets : List ElementType) :
    List OutputRecord :=
  ets.foldl (fun acc et => acc ++ process_element_type doc et) []

/-- The whole script after the document is obtained: input validation
(null raises, a non-list is wrapped, an empty list raises), type
resolution, and the extraction loops; `OUT = material_data`. -/
def run_takeoff (doc : Doc) (selection : PyVal) :
    Except RunError (List OutputRecord) :=
  match selection with
  | .pyNone =>
    .error (.invalidSelection
      "Error processing input selection: Input selection is null")
  | sel =>
    let elements := normalize_selection sel
    if elements.isEmpty then
      .error (.invalidSelection
        "Error processing input selection: Please select some elements first")
    else
      .ok (process_element_types doc (get_element_types doc elements))

/-- Whether a layer's material resolves to a (readable) material name:
the combined outcome of the per-layer document lookup and name read. -/
def resolve_material (doc : Doc) (layer : Layer) : Option String :=
  match doc.getMaterial layer.materialId with
  | none => none
  | some material =>
    match material.nameF with
    | .raises => none
    | .ok n => some n

/-- One step of the "Get element types from selection" loop, viewed as a
partial lookup: the element type an item resolves to, if any. -/
def resolve_one (doc : Doc) (v : PyVal) : Option ElementType :=
  match getTypeIdOf v with
  | .raises => none
  | .ok none => none
  | .ok (some tid) => doc.getType tid

/-- First-occurrence deduplication, written as the spec describes it:
keep each value's first occurrence, drop all later duplicates. -/
def dedup_keep_first {α : Type} [DecidableEq α] : List α → List α
  | [] => []
  | x :: xs => x :: dedup_keep_first (xs.filter (fun y => y ≠ x))
termination_by l => l.length
decreasing_by
  simp only [List.length_cons]
  exact Nat.lt_succ_of_le (List.length_filter_le _ _)

theorem process_layer_eq_resolve (doc : Doc) (f t c : String) (idx : Nat)
    (layer : Layer) :
    process_layer doc f t c idx layer =
      (resolve_material doc layer).map
        (fun m => ⟨f, t, c, m, idx + 1⟩) := by
  cases hm : doc.getMaterial layer.materialId with
  | none => simp [process_layer, resolve_material, hm]
  | some material =>
    cases hn : material.nameF <;>
      simp [process_layer, resolve_material, hm, hn]

theorem mem_filterMap_enumFrom (doc : Doc) (f t c : String) (n : Nat)
    (ls : List Layer) (r : OutputRecord) :
    (r ∈ (List.enumFrom n ls).filterMap
        (fun p => process_layer doc f t c p.1 p.2)) ↔
      ∃ i, ∃ _ : i < ls.length, ∃ m,
        resolve_material doc ls[i] = some m ∧
        r = ⟨f, t, c, m, n + i + 1⟩ := by
  induction ls generalizing n with
  | nil => simp
  | cons l ls ih =>
    rw [List.enumFrom_cons, List.filterMap_cons]
    cases hl : resolve_material doc l with
    | none =>
      have hp : process_layer doc f t c n l = none := by
        rw [process_layer_eq_resolve, hl]; rfl
      rw [hp, ih (n + 1)]
      constructor
      · rintro ⟨i, hi, m, hm, hr⟩
        refine ⟨i + 1, Nat.succ_lt_succ hi, m, by simpa using hm, ?_⟩
        rw [hr]; congr 1; omega
      · rintro ⟨i, hi, m, hm, hr⟩
        cases i with
        | zero =>
          rw [List.getElem_cons_zero] at hm
          rw [hl] at hm; exact absurd hm (by simp)
        | succ j =>
          refine ⟨j, Nat.lt_of_succ_lt_succ hi, m, by simpa using hm, ?_⟩
          rw [hr]; congr 1; omega
    | some m0 =>
      have hp : process_layer doc f t c n l =
          some ⟨f, t, c, m0, n + 1⟩ := by
        rw [process_layer_eq_resolve, hl]; rfl
      rw [hp]
      simp only [List.mem_cons, ih (n + 1)]
      constructor
      · rintro (hr | ⟨i, hi, m, hm, hr⟩)
        · refine ⟨0, Nat.succ_pos _, m0, ?_, ?_⟩
          · simpa [List.getElem_cons_zero] using hl
          · simpa using hr
        · refine ⟨i + 1, Nat.succ_lt_succ hi, m, by simpa using hm, ?_⟩
          rw [hr]; congr 1; omega
      · rintro ⟨i, hi, m, hm, hr⟩
        cases i with
        | zero =>
          rw [List.getElem_cons_zero, hl] at hm
          left; rw [hr]
          simp only [Option.some.injEq] at hm
          rw [hm]
        | succ j =>
          right
          refine ⟨j, Nat.lt_of_succ_lt_succ hi, m, by simpa using hm, ?_⟩
          rw [hr]; congr 1; omega

theorem filterMap_enumFrom_all_resolve (doc : Doc) (f t c : String)
    (n : Nat) (ls : List Layer)
    (h : ∀ l ∈ ls, ∃ m, resolve_material doc l = some m) :
    ((List.enumFrom n ls).filterMap
        (fun p => process_layer doc f t c p.1 p.2)).map
      (fun r => r.layerNumber) = List.range' (n + 1) ls.length := by
  induction ls generalizing n with
  | nil => simp
  | cons l ls ih =>
    obtain ⟨m, hm⟩ := h l (List.mem_cons_self l ls)
    have hp : process_layer doc f t c n l = some ⟨f, t, c, m, n + 1⟩ := by
      rw [process_layer_eq_resolve, hm]; rfl
    rw [List.enumFrom_cons, List.filterMap_cons, hp, List.length_cons,
      List.range'_succ, List.map_cons,
      ih (n + 1) (fun l hl => h l (List.mem_cons_of_mem _ hl))]

theorem filterMap_enumFrom_layerNumber_bound (doc : Doc) (f t c : String)
    (n : Nat) (ls : List Layer) :
    (∀ r ∈ (List.enumFrom n ls).filterMap
        (fun p => process_layer doc f t c p.1 p.2), n + 1 ≤ r.layerNumber) := by
  intro r hr
  rw [mem_filterMap_enumFrom] at hr
  obtain ⟨i, hi, m, hm, hr⟩ := hr
  rw [hr]
  show n + 1 ≤ n + i + 1
  omega

theorem filterMap_enumFrom_pairwise (doc : Doc) (f t c : String)
    (n : Nat) (ls : List Layer) :
    (((List.enumFrom n ls).filterMap
        (fun p => process_layer doc f t c p.1 p.2)).map
      (fun r => r.layerNumber)).Pairwise (· < ·) := by
  induction ls generalizing n with
  | nil => simp
  | cons l ls ih =>
    rw [List.enumFrom_cons, List.filterMap_cons]
    cases hp : process_layer doc f t c n l with
    | none => exact ih (n + 1)
    | some r0 =>
      have hr0 : r0.layerNumber = n + 1 := by
        rw [process_layer_eq_resolve] at hp
        cases hm : resolve_material doc l with
        | none => rw [hm] at hp; exact absurd hp (by simp)
        | some m =>
          rw [hm] at hp
          simp only [Option.map_some', Option.some.injEq] at hp
          rw [← hp]
      rw [List.map_cons, List.pairwise_cons]
      refine ⟨?_, ih (n + 1)⟩
      intro k hk
      rw [List.mem_map] at hk
      obtain ⟨r, hr, hkr⟩ := hk
      have := filterMap_enumFrom_layerNumber_bound doc f t c (n + 1) ls r hr
      omega

theorem foldl_append_eq_flatMap {α β : Type} (g : α → List β)
    (acc : List β) (l : List α) :
    l.foldl (fun a x => a ++ g x) acc = acc ++ l.flatMap g := by
  induction l generalizing acc with
  | nil => simp
  | cons x xs ih => simp [ih, List.flatMap_cons]

theorem process_element_types_eq_flatMap (doc : Doc)
    (ets : List ElementType) :
    process_element_types doc ets =
      ets.flatMap (process_element_type doc) := by
  unfold process_element_types
  rw [foldl_append_eq_flatMap]
  rfl

theorem foldl_dedup_eq {α : Type} [DecidableEq α] (l : List α)
    (acc : List α) :
    l.foldl (fun acc x => if acc.contains x then acc else acc ++ [x]) acc
      = acc ++ dedup_keep_first (l.filter (fun x => !(acc.contains x))) := by
  induction l generalizing acc with
  | nil => simp [dedup_keep_first]
  | cons x xs ih =>
    rw [List.foldl_cons, List.filter_cons]
    by_cases hx' : x ∈ acc
    · have hx : acc.contains x = true := by simpa using hx'
      have hcond : ¬ ((!acc.contains x) = true) := by simp [hx']
      rw [if_pos hx, if_neg hcond]
      exact ih acc
    · have hx : ¬ (acc.contains x = true) := by simpa using hx'
      have hcond : (!acc.contains x) = true := by simp [hx']
      rw [if_neg hx, if_pos hcond, ih (acc ++ [x]), dedup_keep_first]
      have hfil : xs.filter (fun y => !((acc ++ [x]).contains y))
          = (xs.filter (fun y => !(acc.contains y))).filter
              (fun y => y ≠ x) := by
        rw [List.filter_filter]
        apply List.filter_congr
        intro y _
        simp [Bool.and_comm]
      rw [hfil, List.append_assoc]
      rfl

theorem get_element_types_eq_foldl (doc : Doc) (vals : List PyVal)
    (acc : List ElementType) :
    vals.foldl (fun acc element =>
      match getTypeIdOf element with
      | .raises => acc
      | .ok none => acc
      | .ok (some tid) =>
        match doc.getType tid with
        | none => acc
        | some element_type =>
          if acc.contains element_type then acc
          else acc ++ [element_type]) acc
      = (vals.filterMap (resolve_one doc)).foldl
          (fun acc et => if acc.contains et then acc else acc ++ [et])
          acc := by
  induction vals generalizing acc with
  | nil => rfl
  | cons v vs ih =>
    simp only [List.foldl_cons]
    cases hg : getTypeIdOf v with
    | raises =>
      have hv : resolve_one doc v = none := by simp [resolve_one, hg]
      rw [List.filterMap_cons_none hv]
      simp only [hg]
      exact ih acc
    | ok o =>
      cases o with
      | none =>
        have hv : resolve_one doc v = none := by simp [resolve_one, hg]
        rw [List.filterMap_cons_none hv]
        simp only [hg]
        exact ih acc
      | some tid =>
        cases hd : doc.getType tid with
        | none =>
          have hv : resolve_one doc v = none := by
            simp [resolve_one, hg, hd]
          rw [List.filterMap_cons_none hv]
          simp only [hg, hd]
          exact ih acc
        | some et =>
          have hv : resolve_one doc v = some et := by
            simp [resolve_one, hg, hd]
          rw [List.filterMap_cons_some hv]
          simp only [hg, hd, List.foldl_cons]
          exact ih _

theorem get_element_types_eq_dedup (doc : Doc) (vals : List PyVal) :
    get_element_types doc vals
      = dedup_keep_first (vals.filterMap (resolve_one doc)) := by
  unfold get_element_types
  rw [get_element_types_eq_foldl, foldl_dedup_eq]
  simp

theorem filterMap_enumFrom_length (doc : Doc) (f t c : String)
    (n : Nat) (ls : List Layer) :
    ((List.enumFrom n ls).filterMap
        (fun p => process_layer doc f t c p.1 p.2)).length
      = ls.countP (fun l => (resolve_material doc l).isSome) := by
  induction ls generalizing n with
  | nil => rfl
  | cons l ls ih =>
    rw [List.enumFrom_cons, List.filterMap_cons, List.countP_cons]
    cases hl : resolve_material doc l with
    | none =>
      have hp : process_layer doc f t c n l = none := by
        rw [process_layer_eq_resolve, hl]; rfl
      rw [hp, ih (n + 1)]
      simp
    | some m =>
      have hp : process_layer doc f t c n l =
          some ⟨f, t, c, m, n + 1⟩ := by
        rw [process_layer_eq_resolve, hl]; rfl
      rw [hp, List.length_cons, ih (n + 1)]
      simp

theorem process_element_type_eq (doc : Doc) (et : ElementType)
    (cat : Option String) (cs : CompoundStructure) (layers : List Layer)
    (hcat : et.category = .ok cat) (hcs : et.compound = .ok (some cs))
    (hls : cs.layersF = .ok (some layers)) :
    process_element_type doc et =
      if layers.isEmpty then []
      else process_layers doc
        (get_parameter_value et.familyParam "Unknown Family")
        (get_parameter_value et.typeParam "Unknown Type")
        (cat.getD "Unknown Category") layers := by
  simp [process_element_type, hcat, hcs, hls]

theorem process_element_type_eq_nil (doc : Doc) (et : ElementType)
    (h : et.category = .raises ∨ et.compound = .raises
       ∨ et.compound = .ok none
       ∨ ∃ cs, et.compound = .ok (some cs)
           ∧ (cs.layersF = .raises ∨ cs.layersF = .ok none
              ∨ cs.layersF = .ok (some []))) :
    process_element_type doc et = [] := by
  cases hcat : et.category with
  | raises => simp [process_element_type, hcat]
  | ok cat =>
    rcases h with h | h | h | ⟨cs, hcs, h | h | h⟩
    · rw [hcat] at h; exact absurd h (by simp)
    · simp [process_element_type, hcat, h]
    · simp [process_element_type, hcat, h]
    · simp [process_element_type, hcat, hcs, h]
    · simp [process_element_type, hcat, hcs, h]
    · simp [process_element_type, hcat, hcs, h]

theorem mem_process_element_type (doc : Doc) (et : ElementType)
    (r : OutputRecord) (hr : r ∈ process_element_type doc et) :
    r.familyType = get_parameter_value et.familyParam "Unknown Family"
  ∧ r.typeName = get_parameter_value et.typeParam "Unknown Type"
  ∧ ∃ cat, et.category = .ok cat
      ∧ r.category = cat.getD "Unknown Category" := by
  cases hcat : et.category with
  | raises =>
    rw [process_element_type_eq_nil doc et (Or.inl hcat)] at hr
    exact absurd hr (by simp)
  | ok cat =>
    cases hcs : et.compound with
    | raises =>
      rw [process_element_type_eq_nil doc et (Or.inr (Or.inl hcs))] at hr
      exact absurd hr (by simp)
    | ok cso =>
      cases cso with
      | none =>
        rw [process_element_type_eq_nil doc et
          (Or.inr (Or.inr (Or.inl hcs)))] at hr
        exact absurd hr (by simp)
      | some cs =>
        cases hls : cs.layersF with
        | raises =>
          rw [process_element_type_eq_nil doc et
            (Or.inr (Or.inr (Or.inr ⟨cs, hcs, Or.inl hls⟩)))] at hr
          exact absurd hr (by simp)
        | ok lso =>
          cases lso with
          | none =>
            rw [process_element_type_eq_nil doc et
              (Or.inr (Or.inr (Or.inr ⟨cs, hcs, Or.inr (Or.inl hls)⟩)))] at hr
            exact absurd hr (by simp)
          | some layers =>
            rw [process_element_type_eq doc et cat cs layers hcat hcs hls] at hr
            by_cases hemp : layers.isEmpty
            · rw [if_pos hemp] at hr; exact absurd hr (by simp)
            · rw [if_neg hemp, process_layers,
                show layers.enum = List.enumFrom 0 layers from rfl,
                mem_filterMap_enumFrom] at hr
              obtain ⟨i, hi, m, hm, hrr⟩ := hr
              rw [hrr]
              exact ⟨rfl, rfl, cat, rfl, rfl⟩

theorem run_takeoff_eq (doc : Doc) (sel : PyVal)
    (h1 : sel ≠ .pyNone) (h2 : normalize_selection sel ≠ []) :
    run_takeoff doc sel =
      .ok (process_element_types doc
        (get_element_types doc (normalize_selection sel))) := by
  cases sel with
  | pyNone => exact absurd rfl h1
  | pyList xs =>
    have hx : ¬ xs.isEmpty := by
      simpa [normalize_selection, List.isEmpty_iff] using h2
    simp [run_takeoff, normalize_selection, hx]
  | pyTuple xs => simp [run_takeoff, normalize_selection]
  | pyElem e => simp [run_takeoff, normalize_selection]

theorem mem_dedup_keep_first {α : Type} [DecidableEq α] (l : List α)
    (a : α) : a ∈ dedup_keep_first l ↔ a ∈ l := by
  induction l using dedup_keep_first.induct with
  | case1 => simp [dedup_keep_first]
  | case2 x xs ih =>
    rw [dedup_keep_first]
    simp only [List.mem_cons, ih, List.mem_filter]
    constructor
    · rintro (rfl | ⟨h, _⟩)
      · exact Or.inl rfl
      · exact Or.inr h
    · rintro (rfl | h)
      · exact Or.inl rfl
      · by_cases hax : a = x
        · exact Or.inl hax
        · exact Or.inr ⟨h, by simpa using hax⟩

theorem dedup_keep_first_nodup {α : Type} [DecidableEq α] (l : List α) :
    (dedup_keep_first l).Nodup := by
  induction l using dedup_keep_first.induct with
  | case1 => simp [dedup_keep_first]
  | case2 x xs ih =>
    rw [dedup_keep_first]
    refine List.nodup_cons.mpr ⟨?_, ih⟩
    intro hx
    rw [mem_dedup_keep_first, List.mem_filter] at hx
    simpa using hx.2

theorem filterMap_eq_map_of_all_some {α β : Type} (f : α → Option β)
    (b : β) (vals : List α) (h : ∀ v ∈ vals, f v = some b) :
    vals.filterMap f = vals.map (fun _ => b) := by
  induction vals with
  | nil => rfl
  | cons v vs ih =>
    rw [List.filterMap_cons_some (h v (List.mem_cons_self v vs)),
      List.map_cons, ih (fun v hv => h v (List.mem_cons_of_mem _ hv))]

theorem dedup_keep_first_replicate {α : Type} [DecidableEq α] (n : Nat)
    (b : α) (hn : n ≠ 0) : dedup_keep_first (List.replicate n b) = [b] := by
  cases n with
  | zero => exact absurd rfl hn
  | succ m =>
    rw [List.replicate_succ, dedup_keep_first]
    have hfil : (List.replicate m b).filter (fun y => y ≠ b) = [] := by
      rw [List.filter_eq_nil_iff]
      intro a ha
      simp [List.eq_of_mem_replicate ha]
    rw [hfil]
    simp [dedup_keep_first]

theorem process_element_type_layerNumber_pairwise (doc : Doc)
    (et : ElementType) :
    ((process_element_type doc et).map (fun r => r.layerNumber)).Pairwise
      (· < ·) := by
  cases hcat : et.category with
  | raises => simp [process_element_type_eq_nil doc et (Or.inl hcat)]
  | ok cat =>
    cases hcs : et.compound with
    | raises =>
      simp [process_element_type_eq_nil doc et (Or.inr (Or.inl hcs))]
    | ok cso =>
      cases cso with
      | none =>
        simp [process_element_type_eq_nil doc et
          (Or.inr (Or.inr (Or.inl hcs)))]
      | some cs =>
        cases hls : cs.layersF with
        | raises =>
          simp [process_element_type_eq_nil doc et
            (Or.inr (Or.inr (Or.inr ⟨cs, hcs, Or.inl hls⟩)))]
        | ok lso =>
          cases lso with
          | none =>
            simp [process_element_type_eq_nil doc et
              (Or.inr (Or.inr (Or.inr ⟨cs, hcs, Or.inr (Or.inl hls)⟩)))]
          | some layers =>
            rw [process_element_type_eq doc et cat cs layers hcat hcs hls]
            by_cases hemp : layers.isEmpty
            · rw [if_pos hemp]; simp
            · rw [if_neg hemp, process_layers,
                show layers.enum = List.enumFrom 0 layers from rfl]
              exact filterMap_enumFrom_pairwise doc _ _ _ 0 layers

theorem process_skip_layer (doc : Doc) (et : ElementType)
    (cat : Option String) (cs : CompoundStructure) (layers : List Layer)
    (k : Nat) (hk : k < layers.length)
    (hcat : et.category = .ok cat)
    (hcs : et.compound = .ok (some cs))
    (hls : cs.layersF = .ok (some layers))
    (hfail : resolve_material doc layers[k] = none) :
    (∀ r ∈ process_element_type doc et, r.layerNumber ≠ k + 1)
  ∧ (∀ j, ∀ hj : j < layers.length, ∀ m,
      resolve_material doc layers[j] = some m →
      ∃ r ∈ process_element_type doc et,
        r.layerNumber = j + 1 ∧ r.material = m) := by
  have hemp : ¬ layers.isEmpty := by
    cases layers with
    | nil => exact absurd hk (by simp)
    | cons a as => simp
  rw [process_element_type_eq doc et cat cs layers hcat hcs hls,
    if_neg hemp, process_layers,
    show layers.enum = List.enumFrom 0 layers from rfl]
  constructor
  · intro r hr
    rw [mem_filterMap_enumFrom] at hr
    obtain ⟨i, hi, m, hm, hrr⟩ := hr
    rw [hrr]
    show ¬ (0 + i + 1 = k + 1)
    intro hik
    have hik' : i = k := by omega
    subst hik'
    rw [hfail] at hm
    exact absurd hm (by simp)
  · intro j hj m hm
    refine ⟨⟨get_parameter_value et.familyParam "Unknown Family",
             get_parameter_value et.typeParam "Unknown Type",
             cat.getD "Unknown Category", m, 0 + j + 1⟩,
      (mem_filterMap_enumFrom doc _ _ _ 0 layers _).mpr
        ⟨j, hj, m, hm, rfl⟩, ?_, rfl⟩
    show 0 + j + 1 = j + 1
    omega

/-- Concrete two-layer compound structure for witnesses: layer 1 carries
material id 1, layer 2 material id 2. -/
def cs1 : CompoundStructure := ⟨.ok (some [⟨1⟩, ⟨2⟩])⟩

/-- Concrete wall type with id 100 and the two-layer structure `cs1`. -/
def et1 : ElementType :=
  ⟨100, .value "Basic Wall", .value "Generic - 200mm", .ok (some "Walls"),
   .ok (some cs1)⟩

/-- Concrete material named "Concrete". -/
def mat1 : Material := ⟨.ok "Concrete"⟩

/-- Concrete material named "Gypsum". -/
def mat2 : Material := ⟨.ok "Gypsum"⟩

/-- Concrete material whose `Name` read raises. -/
def mat_bad : Material := ⟨.raises⟩

/-- Concrete selected element whose type id is 100. -/
def e1 : Element := ⟨.ok (some 100)⟩

/-- Concrete document: type id 100 is `et1`; material ids 1 and 2 resolve
to "Concrete" and "Gypsum". -/
def doc1 : Doc :=
  { getType := fun tid => if tid = 100 then some et1 else none,
    getMaterial := fun mid =>
      if mid = 1 then some mat1 else if mid = 2 then some mat2 else none }

/-- Concrete document in which material id 2 does not resolve. -/
def doc2 : Doc :=
  { getType := fun tid => if tid = 100 then some et1 else none,
    getMaterial := fun mid => if mid = 1 then some mat1 else none }

/-- Concrete document in which material id 2 resolves to a material whose
`Name` read raises. -/
def doc3 : Doc :=
  { getType := fun tid => if tid = 100 then some et1 else none,
    getMaterial := fun mid =>
      if mid = 1 then some mat1 else if mid = 2 then some mat_bad else none }

/-- Concrete type whose `Category` read raises (but whose layers would
all resolve under `doc1`). -/
def et_bad_cat : ElementType :=
  ⟨101, .value "Basic Wall", .value "Generic - 200mm", .raises,
   .ok (some cs1)⟩

/-- Concrete type with every name attribute unreadable and a null
category. -/
def et_unreadable : ElementType :=
  ⟨102, .noParam, .raises, .ok none, .ok (some cs1)⟩

/-- Concrete type with no compound structure. -/
def et_nostruct : ElementType :=
  ⟨103, .value "Basic Wall", .value "NoStruct", .ok (some "Walls"),
   .ok none⟩

/-- Claim C1: for every element type whose compound structure has N layers
that all resolve to a material, exactly N output records are produced for
that type, with layerNumber values 1..N in strictly ascending, contiguous
order matching the source layer order. -/
theorem C1_layer_count_and_order (doc : Doc) (et : ElementType)
    (cat : Option String) (cs : CompoundStructure) (layers : List Layer)
    (hcat : et.category = .ok cat)
    (hcs : et.compound = .ok (some cs))
    (hls : cs.layersF = .ok (some layers))
    (hres : ∀ l ∈ layers, ∃ m, resolve_material doc l = some m) :
    (process_element_type doc et).length = layers.length
  ∧ (process_element_type doc et).map (fun r => r.layerNumber)
      = List.range' 1 layers.length := by
  rw [process_element_type_eq doc et cat cs layers hcat hcs hls]
  by_cases hemp : layers.isEmpty
  · have hnil : layers = [] := by simpa [List.isEmpty_iff] using hemp
    subst hnil
    simp
  · rw [if_neg hemp, process_layers,
      show layers.enum = List.enumFrom 0 layers from rfl]
    constructor
    · rw [filterMap_enumFrom_length]
      refine List.countP_eq_length.mpr ?_
      intro a ha
      obtain ⟨m, hm⟩ := hres a ha
      simp [hm]
    · exact filterMap_enumFrom_all_resolve doc _ _ _ 0 layers hres

theorem C1_witness :
    (process_element_type doc1 et1).length = 2
  ∧ (process_element_type doc1 et1).map (fun r => r.layerNumber)
      = List.range' 1 2 :=
  C1_layer_count_and_order doc1 et1 (some "Walls") cs1 [⟨1⟩, ⟨2⟩]
    rfl rfl rfl
    (by
      intro l hl
      simp only [List.mem_cons, List.not_mem_nil, or_false] at hl
      rcases hl with rfl | rfl
      · exact ⟨"Concrete", rfl⟩
      · exact ⟨"Gypsum", rfl⟩)

/-- Claim C2: if layer k of a type fails to resolve to a material, no
record with layerNumber k is produced for it and no placeholder is
emitted, while every other resolving layer still produces its record, so
the per-type record count is strictly below the layer count. -/
theorem C2_skip_on_missing_material (doc : Doc) (et : ElementType)
    (cat : Option String) (cs : CompoundStructure) (layers : List Layer)
    (k : Nat) (hk : k < layers.length)
    (hcat : et.category = .ok cat)
    (hcs : et.compound = .ok (some cs))
    (hls : cs.layersF = .ok (some layers))
    (hfail : resolve_material doc layers[k] = none) :
    (∀ r ∈ process_element_type doc et, r.layerNumber ≠ k + 1)
  ∧ (∀ j, ∀ hj : j < layers.length, ∀ m,
      resolve_material doc layers[j] = some m →
      ∃ r ∈ process_element_type doc et,
        r.layerNumber = j + 1 ∧ r.material = m)
  ∧ (process_element_type doc et).length < layers.length := by
  obtain ⟨h1, h2⟩ :=
    process_skip_layer doc et cat cs layers k hk hcat hcs hls hfail
  refine ⟨h1, h2, ?_⟩
  have hemp : ¬ layers.isEmpty := by
    cases layers with
    | nil => exact absurd hk (by simp)
    | cons a as => simp
  rw [process_element_type_eq doc et cat cs layers hcat hcs hls,
    if_neg hemp, process_layers,
    show layers.enum = List.enumFrom 0 layers from rfl,
    filterMap_enumFrom_length]
  refine Nat.lt_of_le_of_ne (List.countP_le_length _) ?_
  intro heq
  have hall := List.countP_eq_length.mp heq layers[k] (List.getElem_mem hk)
  rw [hfail] at hall
  exact absurd hall (by simp)

theorem C2_witness :
    (process_element_type doc2 et1).length < 2 :=
  (C2_skip_on_missing_material doc2 et1 (some "Walls") cs1 [⟨1⟩, ⟨2⟩]
    1 (by decide) rfl rfl rfl rfl).2.2

/-- Claim C4: for a null (absent) selection input, or one that normalizes
to an empty sequence, the run fails with the invalid-selection error and
produces no output records. -/
theorem C4_invalid_selection (doc : Doc) (sel : PyVal)
    (h : sel = .pyNone ∨ normalize_selection sel = []) :
    ∃ msg, run_takeoff doc sel = .error (.invalidSelection msg) := by
  rcases h with rfl | h
  · exact ⟨_, rfl⟩
  · cases sel with
    | pyNone => exact ⟨_, rfl⟩
    | pyList xs =>
      have hx : xs = [] := by simpa [normalize_selection] using h
      subst hx
      exact ⟨_, rfl⟩
    | pyTuple xs => simp [normalize_selection] at h
    | pyElem e => simp [normalize_selection] at h

theorem C4_witness :
    ∃ msg, run_takeoff doc1 (.pyList []) =
      .error (.invalidSelection msg) :=
  C4_invalid_selection doc1 (.pyList []) (Or.inr rfl)

/-- Claim C9: running the extraction on a single element reference not
wrapped in a sequence yields exactly the same output as running it on the
one-element sequence containing that reference. -/
theorem C9_single_element_wrap (doc : Doc) (e : Element) :
    run_takeoff doc (.pyElem e) = run_takeoff doc (.pyList [.pyElem e]) :=
  rfl

/-- Claim C10: only a value of the concrete list type is iterated; any
non-null non-list input (a tuple-like collection) is wrapped as a single
item and processed as one element — whose type-id read raises, so it
contributes nothing — rather than iterated as a sequence. -/
theorem C10_non_list_wrapped (doc : Doc) (xs : List PyVal) :
    normalize_selection (.pyTuple xs) = [.pyTuple xs]
  ∧ run_takeoff doc (.pyTuple xs)
      = run_takeoff doc (.pyList [.pyTuple xs])
  ∧ run_takeoff doc (.pyTuple xs) = .ok [] :=
  ⟨rfl, rfl, rfl⟩

/-- Claim C3: the type-resolver output is the sequence of distinct element
type identities in first-appearance order (duplicates dropped), comparison
distinguishes types with different ids, and when all selected elements
share one type that type is processed exactly once, its layer records
appearing exactly once in the run output. -/
theorem C3_type_resolver (doc : Doc) :
    (∀ vals : List PyVal,
       get_element_types doc vals
         = dedup_keep_first (vals.filterMap (resolve_one doc)))
  ∧ (∀ vals : List PyVal, (get_element_types doc vals).Nodup)
  ∧ (∀ a b : ElementType, a.id ≠ b.id → a ≠ b)
  ∧ (∀ (vals : List PyVal) (et : ElementType), vals ≠ [] →
       (∀ v ∈ vals, resolve_one doc v = some et) →
       get_element_types doc vals = [et]
     ∧ run_takeoff doc (.pyList vals)
         = .ok (process_element_type doc et)) := by
  refine ⟨fun vals => get_element_types_eq_dedup doc vals, ?_, ?_, ?_⟩
  · intro vals
    rw [get_element_types_eq_dedup]
    exact dedup_keep_first_nodup _
  · intro a b hne heq
    exact hne (by rw [heq])
  · intro vals et hne hall
    have h1 : get_element_types doc vals = [et] := by
      rw [get_element_types_eq_dedup,
        filterMap_eq_map_of_all_some (resolve_one doc) et vals hall,
        List.map_const']
      exact dedup_keep_first_replicate _ _
        (by simpa [List.length_eq_zero] using hne)
    refine ⟨h1, ?_⟩
    rw [run_takeoff_eq doc (.pyList vals)
        (fun h => PyVal.noConfusion h)
        (by simpa [normalize_selection] using hne),
      show normalize_selection (.pyList vals) = vals from rfl, h1,
      process_element_types_eq_flatMap]
    simp

theorem C3_witness :
    get_element_types doc1 [.pyElem e1, .pyElem e1] = [et1]
  ∧ run_takeoff doc1 (.pyList [.pyElem e1, .pyElem e1])
      = .ok (process_element_type doc1 et1) :=
  (C3_type_resolver doc1).2.2.2 [.pyElem e1, .pyElem e1] et1
    (by simp)
    (by
      intro v hv
      rcases List.mem_cons.mp hv with rfl | hv
      · rfl
      · rcases List.mem_cons.mp hv with rfl | hv
        · rfl
        · exact absurd hv (List.not_mem_nil v))

/-- Claim C5: the final output sequence is exactly the concatenation of
the per-type record lists in first-appearance type order, with records
inside each type in ascending layer order; no sorting, grouping or
deduplication is applied to the records themselves. -/
theorem C5_output_order (doc : Doc) (sel : PyVal)
    (h1 : sel ≠ .pyNone) (h2 : normalize_selection sel ≠ []) :
    run_takeoff doc sel
      = .ok ((get_element_types doc (normalize_selection sel)).flatMap
          (process_element_type doc))
  ∧ ∀ et : ElementType,
      ((process_element_type doc et).map (fun r => r.layerNumber)).Pairwise
        (· < ·) := by
  constructor
  · rw [run_takeoff_eq doc sel h1 h2, process_element_types_eq_flatMap]
  · intro et
    exact process_element_type_layerNumber_pairwise doc et

theorem C5_witness :
    run_takeoff doc1 (.pyList [.pyElem e1])
      = .ok ((get_element_types doc1
          (normalize_selection (.pyList [.pyElem e1]))).flatMap
            (process_element_type doc1)) :=
  (C5_output_order doc1 (.pyList [.pyElem e1])
    (fun h => PyVal.noConfusion h)
    (fun h => List.noConfusion h)).1

/-- Claim C6 counterexample: for `et_bad_cat`, whose `Category` read
raises, the error is not converted into the documented default: although
both layer materials resolve under `doc1`, the per-type handler abandons
the whole type and no record (in particular none with category
"Unknown Category") is produced. -/
theorem C6_counterexample :
    et_bad_cat.category = Fetch.raises
  ∧ resolve_material doc1 (Layer.mk 1) = some "Concrete"
  ∧ resolve_material doc1 (Layer.mk 2) = some "Gypsum"
  ∧ process_element_type doc1 et_bad_cat = [] :=
  ⟨rfl, rfl, rfl, rfl⟩

/-- Claim C6 (amended): the family-name and type-name reads return the
documented defaults ("Unknown Family", "Unknown Type") whenever the
parameter is absent, has no value, or the fetch raises, without
propagating the error; the category field defaults to "Unknown Category"
only when the category is absent (null) — an error while reading the
category is instead handled by the per-type error isolation, so no record
of an affected type exists; in every fallback case the output field is the
non-empty documented default, never empty or null. -/
theorem C6_attribute_fallback (doc : Doc) (et : ElementType)
    (r : OutputRecord) (hr : r ∈ process_element_type doc et) :
    ((∀ s, et.familyParam ≠ .value s) →
       r.familyType = "Unknown Family" ∧ r.familyType ≠ "")
  ∧ ((∀ s, et.typeParam ≠ .value s) →
       r.typeName = "Unknown Type" ∧ r.typeName ≠ "")
  ∧ (et.category = .ok none →
       r.category = "Unknown Category" ∧ r.category ≠ "")
  ∧ et.category ≠ .raises := by
  obtain ⟨hf, ht, cat, hcat, hc⟩ := mem_process_element_type doc et r hr
  refine ⟨?_, ?_, ?_, ?_⟩
  · intro hnv
    have hd : get_parameter_value et.familyParam "Unknown Family"
        = "Unknown Family" := by
      cases hpf : et.familyParam with
      | raises => rfl
      | noParam => rfl
      | noValue => rfl
      | value s => exact absurd hpf (hnv s)
    rw [hf, hd]
    exact ⟨rfl, by decide⟩
  · intro hnv
    have hd : get_parameter_value et.typeParam "Unknown Type"
        = "Unknown Type" := by
      cases hpf : et.typeParam with
      | raises => rfl
      | noParam => rfl
      | noValue => rfl
      | value s => exact absurd hpf (hnv s)
    rw [ht, hd]
    exact ⟨rfl, by decide⟩
  · intro hnone
    rw [hcat] at hnone
    cases hnone
    rw [hc]
    exact ⟨rfl, by decide⟩
  · intro hraises
    rw [hcat] at hraises
    exact Fetch.noConfusion hraises

theorem C6_witness :
    ((⟨"Unknown Family", "Unknown Type", "Unknown Category",
        "Concrete", 1⟩ : OutputRecord).familyType = "Unknown Family"
      ∧ (⟨"Unknown Family", "Unknown Type", "Unknown Category",
          "Concrete", 1⟩ : OutputRecord).familyType ≠ "")
  ∧ ((⟨"Unknown Family", "Unknown Type", "Unknown Category",
        "Concrete", 1⟩ : OutputRecord).category = "Unknown Category"
      ∧ (⟨"Unknown Family", "Unknown Type", "Unknown Category",
          "Concrete", 1⟩ : OutputRecord).category ≠ "") := by
  have h := C6_attribute_fallback doc1 et_unreadable
    ⟨"Unknown Family", "Unknown Type", "Unknown Category", "Concrete", 1⟩
    (by decide)
  exact ⟨h.1 (fun s hs => ParamFetch.noConfusion hs),
         h.2.2.1 rfl⟩

/-- Claim C7: an element type whose compound structure is absent, or
whose layer list is absent or empty, contributes zero output records and
does not abort the run — the surrounding types are processed exactly as
if it were not present. -/
theorem C7_no_structure_skip (doc : Doc) (et : ElementType)
    (pre post : List ElementType)
    (h : et.compound = .ok none
       ∨ ∃ cs, et.compound = .ok (some cs)
           ∧ (cs.layersF = .ok none ∨ cs.layersF = .ok (some []))) :
    process_element_type doc et = []
  ∧ process_element_types doc (pre ++ et :: post)
      = process_element_types doc pre ++ process_element_types doc post := by
  have hnil : process_element_type doc et = [] := by
    apply process_element_type_eq_nil
    rcases h with h | ⟨cs, hcs, h | h⟩
    · exact Or.inr (Or.inr (Or.inl h))
    · exact Or.inr (Or.inr (Or.inr ⟨cs, hcs, Or.inr (Or.inl h)⟩))
    · exact Or.inr (Or.inr (Or.inr ⟨cs, hcs, Or.inr (Or.inr h)⟩))
  refine ⟨hnil, ?_⟩
  rw [process_element_types_eq_flatMap, process_element_types_eq_flatMap,
    process_element_types_eq_flatMap, List.flatMap_append,
    List.flatMap_cons, hnil]
  simp

theorem C7_witness :
    process_element_type doc1 et_nostruct = []
  ∧ process_element_types doc1 ([et1] ++ et_nostruct :: [])
      = process_element_types doc1 [et1]
        ++ process_element_types doc1 [] :=
  C7_no_structure_skip doc1 et_nostruct [et1] [] (Or.inl rfl)

/-- Claim C8: an unexpected error raised while processing one layer (here:
the material's name read raising after the lookup succeeded) skips only
that layer — no record carries its layer number, every other resolving
layer still produces its record at its original position; an unexpected
error raised at type level (category read, compound-structure fetch, or
layer-list fetch raising) abandons only that type, leaving the records of
every preceding and following type — hence also all records already
accumulated — untouched. -/
theorem C8_error_isolation (doc : Doc) :
    (∀ (et : ElementType) (cat : Option String) (cs : CompoundStructure)
        (layers : List Layer) (k : Nat) (hk : k < layers.length)
        (material : Material),
        et.category = .ok cat →
        et.compound = .ok (some cs) →
        cs.layersF = .ok (some layers) →
        doc.getMaterial layers[k].materialId = some material →
        material.nameF = .raises →
        (∀ r ∈ process_element_type doc et, r.layerNumber ≠ k + 1)
      ∧ (∀ j, ∀ hj : j < layers.length, ∀ m,
          resolve_material doc layers[j] = some m →
          ∃ r ∈ process_element_type doc et,
            r.layerNumber = j + 1 ∧ r.material = m))
  ∧ (∀ (pre post : List ElementType) (et : ElementType),
        (et.category = .raises ∨ et.compound = .raises
         ∨ ∃ cs, et.compound = .ok (some cs) ∧ cs.layersF = .raises) →
        process_element_type doc et = []
      ∧ process_element_types doc (pre ++ et :: post)
          = process_element_types doc pre
            ++ process_element_types doc post) := by
  constructor
  · intro et cat cs layers k hk material hcat hcs hls hmat hname
    have hfail : resolve_material doc layers[k] = none := by
      simp [resolve_material, hmat, hname]
    exact process_skip_layer doc et cat cs layers k hk hcat hcs hls hfail
  · intro pre post et h
    have hnil : process_element_type doc et = [] := by
      apply process_element_type_eq_nil
      rcases h with h | h | ⟨cs, hcs, h⟩
      · exact Or.inl h
      · exact Or.inr (Or.inl h)
      · exact Or.inr (Or.inr (Or.inr ⟨cs, hcs, Or.inl h⟩))
    refine ⟨hnil, ?_⟩
    rw [process_element_types_eq_flatMap, process_element_types_eq_flatMap,
      process_element_types_eq_flatMap, List.flatMap_append,
      List.flatMap_cons, hnil]
    simp

theorem C8_witness :
    (∃ r ∈ process_element_type doc3 et1,
       r.layerNumber = 0 + 1 ∧ r.material = "Concrete")
  ∧ process_element_type doc3 et_bad_cat = []
  ∧ process_element_types doc3 ([et1] ++ et_bad_cat :: [])
      = process_element_types doc3 [et1]
        ++ process_element_types doc3 [] := by
  have h1 := ((C8_error_isolation doc3).1 et1 (some "Walls") cs1
    [⟨1⟩, ⟨2⟩] 1 (by decide) mat_bad rfl rfl rfl rfl rfl).2
    0 (by decide) "Concrete" rfl
  have h2 := (C8_error_isolation doc3).2 [et1] [] et_bad_cat (Or.inl rfl)
  exact ⟨h1, h2.1, h2.2⟩
